import Mathlib

/-!
Shallow embedding of the art_os display driver (src/src/vga_buffer.rs) and
self-test harness (src/src/lib.rs), with theorems checking the stated
properties of the specification against it.

Modelling conventions:
- Machine bytes (u8) and u32 values are Nat; wherever Rust arithmetic could
  wrap, an explicit reduction modulo 2 ^ w is written out.
- The VGA buffer is a list of rows, each a list of ScreenChar.  The Rust
  index operator panics when out of bounds; that is modelled by
  Option-returning cell access, so every Writer operation returns Option.
- The Writer carries one ghost field, scrolls, counting the invocations of
  new_line; it is not part of the Rust struct and no operation reads it.
- Panics in a test case do not return to the caller; test_runner is
  therefore modelled as a recursion that hands control to
  test_panic_handler at the first failing case.  Serial output and port
  writes are modelled as an event trace.
-/

namespace ArtOS

/-- Allowed colors that VGA can handle (enum Color in vga_buffer.rs). -/
inductive Color
  | Black
  | Blue
  | Green
  | Cyan
  | Red
  | Magenta
  | Brown
  | LightGray
  | DarkGray
  | LightBlue
  | LightGreen
  | LightCyan
  | LightRed
  | Pink
  | Yellow
  | White
deriving DecidableEq

/-- The repr(u8) discriminant of each Color. -/
def Color.toU8 : Color → Nat
  | .Black => 0
  | .Blue => 1
  | .Green => 2
  | .Cyan => 3
  | .Red => 4
  | .Magenta => 5
  | .Brown => 6
  | .LightGray => 7
  | .DarkGray => 8
  | .LightBlue => 9
  | .LightGreen => 10
  | .LightCyan => 11
  | .LightRed => 12
  | .Pink => 13
  | .Yellow => 14
  | .White => 15

/-- ColorCode is a repr(transparent) wrapper around u8. -/
abbrev ColorCode := Nat

/-- ColorCode::new packs background and foreground:
(background as u8) << 4 | (foreground as u8).  Both operands are at most
15, so the u8 expression cannot wrap and no reduction is needed. -/
def ColorCode.new (foreground background : Color) : ColorCode :=
  (background.toU8 <<< 4) ||| foreground.toU8

/-- ScreenChar: one 2-byte cell, ASCII code point plus ColorCode. -/
structure ScreenChar where
  ascii_character : Nat
  color_code : ColorCode
deriving DecidableEq

/-- The blank cell used when clearing a row: ascii 0x20 with a color. -/
def blankChar (cc : ColorCode) : ScreenChar :=
  { ascii_character := 0x20, color_code := cc }

def BUFFER_HEIGHT : Nat := 25

def BUFFER_WIDTH : Nat := 80

/-- The VGA character grid: BUFFER_HEIGHT rows of BUFFER_WIDTH cells.
The fixed 25 x 80 shape of the hardware buffer is a separate well-formedness
predicate, Buffer.wf, so that the panic of an out-of-range index stays
observable in the embedding. -/
abbrev Buffer := List (List ScreenChar)

/-- Volatile read of the cell at (row, col); the panic of the Rust index
operator on an out-of-range index is modelled as none. -/
def Buffer.readCell (buf : Buffer) (row col : Nat) : Option ScreenChar :=
  match buf[row]? with
  | none => none
  | some r => r[col]?

/-- Volatile write of the cell at (row, col); the panic of the Rust index
operator on an out-of-range index is modelled as none. -/
def Buffer.writeCell (buf : Buffer) (row col : Nat) (c : ScreenChar) : Option Buffer :=
  match buf[row]? with
  | none => none
  | some r => if col < r.length then some (buf.set row (r.set col c)) else none

/-- The buffer has exactly BUFFER_HEIGHT rows of BUFFER_WIDTH cells each,
as the hardware region at 0xB8000 does. -/
def Buffer.wf (buf : Buffer) : Prop :=
  buf.length = BUFFER_HEIGHT ∧ ∀ r ∈ buf, r.length = BUFFER_WIDTH

instance (buf : Buffer) : Decidable (Buffer.wf buf) := by
  unfold Buffer.wf
  infer_instance

/-- The Writer of vga_buffer.rs.  The field scrolls is a ghost counter of
new_line invocations, used only to state scrolling claims; it does not
exist in the source struct and no operation branches on it. -/
structure Writer where
  column_position : Nat
  color_code : ColorCode
  buffer : Buffer
  scrolls : Nat
deriving DecidableEq

/-- Writer::clear_row: overwrite every column of the given row with a blank
cell (ascii 0x20) carrying the current color code. -/
def Writer.clear_row (w : Writer) (row : Nat) : Option Writer := do
  let blank : ScreenChar := { ascii_character := 0x20, color_code := w.color_code }
  let buf ← (List.range BUFFER_WIDTH).foldlM (fun b col => b.writeCell row col blank) w.buffer
  pure { w with buffer := buf }

/-- Writer::new_line: for every row in 1..BUFFER_HEIGHT copy that row one
row up (reading each cell from the evolving buffer), then clear the last
row, then reset the column to 0.  The ghost scroll counter is bumped. -/
def Writer.new_line (w : Writer) : Option Writer := do
  let buf ← (List.range' 1 (BUFFER_HEIGHT - 1)).foldlM
    (fun b row =>
      (List.range BUFFER_WIDTH).foldlM
        (fun b col => do
          let character ← b.readCell row col
          b.writeCell (row - 1) col character)
        b)
    w.buffer
  let w2 ← Writer.clear_row { w with buffer := buf, scrolls := w.scrolls + 1 } (BUFFER_HEIGHT - 1)
  pure { w2 with column_position := 0 }

/-- Writer::write_byte: a newline byte triggers new_line; any other byte is
written verbatim at (last row, column) after wrapping when the column has
reached BUFFER_WIDTH, and the column advances by one. -/
def Writer.write_byte (w : Writer) (byte : Nat) : Option Writer :=
  if byte = 0x0a then
    w.new_line
  else do
    let w ← if BUFFER_WIDTH ≤ w.column_position then w.new_line else pure w
    let row := BUFFER_HEIGHT - 1
    let col := w.column_position
    let color_code := w.color_code
    let buf ← w.buffer.writeCell row col { ascii_character := byte, color_code := color_code }
    pure { w with buffer := buf, column_position := w.column_position + 1 }

/-- Writer::write_string: dispatch every byte independently; printable
bytes 0x20..=0x7e and the newline go to write_byte unchanged, every other
byte is sent to write_byte as the placeholder 0xfe. -/
def Writer.write_string (w : Writer) (s : List Nat) : Option Writer :=
  s.foldlM
    (fun w byte =>
      if (0x20 ≤ byte ∧ byte ≤ 0x7e) ∨ byte = 0x0a then w.write_byte byte
      else w.write_byte 0xfe)
    w

/-- The fmt::Write impl for Writer: write_str calls write_string and then
returns Ok(()).  fmt::Result is modelled as Except Unit Unit. -/
def Writer.write_str (w : Writer) (s : List Nat) : Option (Writer × Except Unit Unit) := do
  let w2 ← w.write_string s
  pure (w2, Except.ok ())

/-- Result::unwrap on a fmt::Result: panics (none) on an Err value. -/
def unwrap : Except Unit Unit → Option Unit
  | .ok u => some u
  | .error _ => none

/-- The _print entry point: write through the writer and unwrap the
fmt::Result (locking is invisible to this sequential embedding). -/
def _print (w : Writer) (s : List Nat) : Option Writer := do
  let p ← w.write_str s
  let _ ← unwrap p.2
  pure p.1

/-- The lazily constructed WRITER singleton: column 0, yellow on black,
over whatever cell contents the hardware buffer holds at first use. -/
def WRITER (buf : Buffer) : Writer :=
  { column_position := 0
    color_code := ColorCode.new Color.Yellow Color.Black
    buffer := buf
    scrolls := 0 }

/-- QemuExitCode from lib.rs, repr(u32). -/
inductive QemuExitCode
  | Success
  | Failed
deriving DecidableEq

/-- The repr(u32) value of each QemuExitCode. -/
def QemuExitCode.toU32 : QemuExitCode → Nat
  | .Success => 0x10
  | .Failed => 0x11

/-- A single hardware I/O port write (port number and 4-byte value). -/
structure PortWrite where
  port : Nat
  value : Nat
deriving DecidableEq

/-- exit_qemu: write the exit code as a u32 to port 0xf4. -/
def exit_qemu (exit_code : QemuExitCode) : PortWrite :=
  { port := 0xf4, value := exit_code.toU32 % 2 ^ 32 }

/-- Modelled from the spec: the hosting environment interprets the 4-byte
value written to the exit port as a termination request with host exit
status (value << 1) | 1.  This convention lives in the host emulator, not
in the repository source. -/
def host_status (value : Nat) : Nat :=
  (value <<< 1) ||| 1

/-- One observable event of a test run: a serial output line fragment or
an exit signal to the host. -/
inductive Event
  | serial : String → Event
  | exitSignal : QemuExitCode → Event
deriving DecidableEq

/-- Whether an event is an exit signal. -/
def Event.isExit : Event → Bool
  | .exitSignal _ => true
  | _ => false

instance {ε α : Type} [DecidableEq ε] [DecidableEq α] : DecidableEq (Except ε α) := fun x y =>
  match x, y with
  | .ok a, .ok b =>
    if h : a = b then isTrue (h ▸ rfl) else isFalse fun hc => h (Except.ok.inj hc)
  | .ok _, .error _ => isFalse fun hc => Except.noConfusion hc
  | .error _, .ok _ => isFalse fun hc => Except.noConfusion hc
  | .error a, .error b =>
    if h : a = b then isTrue (h ▸ rfl) else isFalse fun hc => h (Except.error.inj hc)

/-- A registered test case: its reported name (type_name in the source)
and its body, which either returns normally or panics with a message. -/
structure TestCase where
  name : String
  body : Except String Unit
deriving DecidableEq

/-- Testable::run for a case: print the name, execute the body, and print
the ok marker when the body returns normally.  The second component tells
whether the body returned normally. -/
def TestCase.run (t : TestCase) : List Event × Except String Unit :=
  match t.body with
  | .ok u => ([.serial (t.name ++ "...\t"), .serial "[ok]\n"], .ok u)
  | .error info => ([.serial (t.name ++ "...\t")], .error info)

/-- test_panic_handler: print the failure marker and the diagnostic, then
signal Failed.  The trailing forever-loop emits no further events. -/
def test_panic_handler (info : String) : List Event :=
  [.serial "[failed]\n\n", .serial ("Error: " ++ info ++ "\n\n"), .exitSignal .Failed]

/-- The loop of test_runner: run each case in order; a panic inside a case
transfers control to test_panic_handler and the remaining cases never run;
when the loop completes, signal Success. -/
def run_tests (tests : List TestCase) : List Event :=
  match tests with
  | [] => [.exitSignal .Success]
  | t :: rest =>
    match t.run with
    | (evs, .ok _) => evs ++ run_tests rest
    | (evs, .error info) => evs ++ test_panic_handler info

/-- test_runner: print the case count, then run the loop. -/
def test_runner (tests : List TestCase) : List Event :=
  .serial ("Running " ++ toString tests.length ++ " tests\n") :: run_tests tests

/-- A concrete well-formed buffer for witnesses: all cells blank white. -/
def initBuffer : Buffer :=
  List.replicate BUFFER_HEIGHT
    (List.replicate BUFFER_WIDTH { ascii_character := 0x20, color_code := 0x0f })

/-- A concrete writer over initBuffer for witnesses. -/
def testWriter : Writer :=
  { column_position := 0, color_code := 0x0e, buffer := initBuffer, scrolls := 0 }

/-- A writer whose column is far out of range, for the safety witness. -/
def strayWriter : Writer :=
  { column_position := 1000, color_code := 0x0e, buffer := initBuffer, scrolls := 0 }

/-- The writer obtained from testWriter after one printable byte 0x41,
used as a concrete output value in witnesses. -/
def testWriter2 : Writer :=
  { column_position := 1
    color_code := 0x0e
    buffer := initBuffer.set (BUFFER_HEIGHT - 1)
      ((List.replicate BUFFER_WIDTH { ascii_character := 0x20, color_code := 0x0f }).set 0
        { ascii_character := 0x41, color_code := 0x0e })
    scrolls := 0 }

/-! List helper lemmas for the loop characterizations. -/

theorem set_getElem_self {α : Type} (l : List α) (n : Nat) (a : α)
    (h : l[n]? = some a) : l.set n a = l := by
  induction l generalizing n with
  | nil => simp at h
  | cons x xs ih =>
    cases n with
    | zero =>
      simp only [List.getElem?_cons_zero, Option.some.injEq] at h
      simp [h]
    | succ n =>
      simp only [List.getElem?_cons_succ] at h
      simp [ih n h]

theorem take_set_of_le {α : Type} (l : List α) (m n : Nat) (a : α)
    (h : n ≤ m) : (l.set m a).take n = l.take n := by
  induction l generalizing m n with
  | nil => simp
  | cons x xs ih =>
    cases m with
    | zero =>
      have : n = 0 := by omega
      simp [this]
    | succ m =>
      cases n with
      | zero => simp
      | succ n => simp [ih m n (by omega)]

theorem mem_of_getElem_some {α : Type} {l : List α} {n : Nat} {a : α}
    (h : l[n]? = some a) : a ∈ l := by
  obtain ⟨hlt, rfl⟩ := List.getElem?_eq_some.mp h
  exact List.getElem_mem hlt

/-! Characterizations of the cell accessors and the three loops of the
writer (clear_row fill, new_line inner copy, new_line outer scroll). -/

theorem readCell_eq {buf : Buffer} {row : Nat} {r : List ScreenChar}
    (hr : buf[row]? = some r) (col : Nat) :
    buf.readCell row col = r[col]? := by
  simp [Buffer.readCell, hr]

theorem writeCell_eq_some {buf : Buffer} {row col : Nat} {r : List ScreenChar} (c : ScreenChar)
    (hr : buf[row]? = some r) (hcol : col < r.length) :
    buf.writeCell row col c = some (buf.set row (r.set col c)) := by
  simp [Buffer.writeCell, hr, hcol]

theorem setRow_shift {α : Type} (pre mid : List α) (n : Nat) (a : α)
    (hlen : pre.length = n) (hn : n < mid.length) :
    (pre ++ mid.drop n).set n a = pre ++ a :: mid.drop (n + 1) := by
  rw [List.set_append, if_neg (by omega), hlen, Nat.sub_self]
  rw [List.drop_eq_getElem_cons hn, List.set_cons_zero]

theorem clearLoop_eq (c : ScreenChar) (row : Nat) (buf : Buffer) (r : List ScreenChar)
    (hr : buf[row]? = some r) :
    ∀ n, n ≤ r.length →
      (List.range n).foldlM (fun b col => Buffer.writeCell b row col c) buf
        = some (buf.set row (List.replicate n c ++ r.drop n)) := by
  intro n
  induction n with
  | zero =>
    intro _
    simp [set_getElem_self _ _ _ hr]
  | succ n ih =>
    intro hn
    rw [List.range_succ, List.foldlM_append, ih (by omega)]
    have hrow : row < buf.length := (List.getElem?_eq_some.mp hr).1
    have hlt : n < r.length := by omega
    have hget : (buf.set row (List.replicate n c ++ r.drop n))[row]?
        = some (List.replicate n c ++ r.drop n) := List.getElem?_set_self hrow
    have hsz : n < (List.replicate n c ++ r.drop n).length := by
      simp only [List.length_append, List.length_replicate, List.length_drop]
      omega
    simp only [List.foldlM_cons, List.foldlM_nil, Option.bind_eq_bind, Option.some_bind]
    rw [writeCell_eq_some c hget hsz, List.set_set]
    rw [setRow_shift (List.replicate n c) r n c (List.length_replicate n c) hlt]
    rw [List.replicate_succ' n c]
    simp

theorem copyLoop_eq (row : Nat) (buf : Buffer) (src dst : List ScreenChar)
    (h1 : 1 ≤ row) (hsrc : buf[row]? = some src) (hdst : buf[row - 1]? = some dst)
    (hlen : dst.length = src.length) :
    ∀ n, n ≤ src.length →
      (List.range n).foldlM
        (fun b col => do
          let character ← Buffer.readCell b row col
          Buffer.writeCell b (row - 1) col character)
        buf
        = some (buf.set (row - 1) (src.take n ++ dst.drop n)) := by
  intro n
  induction n with
  | zero =>
    intro _
    simp [set_getElem_self _ _ _ hdst]
  | succ n ih =>
    intro hn
    rw [List.range_succ, List.foldlM_append, ih (by omega)]
    have hne : row - 1 ≠ row := by omega
    have hdrow : row - 1 < buf.length := (List.getElem?_eq_some.mp hdst).1
    have hsn : n < src.length := by omega
    have hdn : n < dst.length := by omega
    have hread : (buf.set (row - 1) (src.take n ++ dst.drop n))[row]? = some src := by
      rw [List.getElem?_set_ne hne]
      exact hsrc
    have hget : (buf.set (row - 1) (src.take n ++ dst.drop n))[row - 1]?
        = some (src.take n ++ dst.drop n) := List.getElem?_set_self hdrow
    have hsz : n < (src.take n ++ dst.drop n).length := by
      simp only [List.length_append, List.length_take, List.length_drop]
      omega
    simp only [List.foldlM_cons, List.foldlM_nil, Option.bind_eq_bind, Option.some_bind]
    rw [readCell_eq hread n, List.getElem?_eq_getElem hsn]
    simp only [Option.some_bind]
    rw [writeCell_eq_some _ hget hsz, List.set_set]
    rw [setRow_shift (src.take n) dst n (src[n]) (by simp [List.length_take]; omega) hdn]
    have htake : src.take (n + 1) = src.take n ++ [src[n]] := by
      rw [List.take_succ, List.getElem?_eq_getElem hsn]
      rfl
    have hrow2 : src.take n ++ src[n] :: dst.drop (n + 1)
        = src.take (n + 1) ++ dst.drop (n + 1) := by
      rw [htake, List.append_assoc, List.singleton_append]
    rw [hrow2]
    rfl

theorem scrollLoop_eq (buf : Buffer) (hlen : buf.length = BUFFER_HEIGHT)
    (hrows : ∀ r ∈ buf, r.length = BUFFER_WIDTH) :
    ∀ m, m ≤ BUFFER_HEIGHT - 1 →
      (List.range' 1 m).foldlM
        (fun b row =>
          (List.range BUFFER_WIDTH).foldlM
            (fun b col => do
              let character ← Buffer.readCell b row col
              Buffer.writeCell b (row - 1) col character)
            b)
        buf
        = some ((buf.drop 1).take m ++ buf.drop m) := by
  intro m
  induction m with
  | zero =>
    intro _
    simp
  | succ m ih =>
    intro hm
    have hconcat : List.range' 1 (m + 1) = List.range' 1 m ++ [m + 1] := by
      rw [List.range'_concat]
      simp [Nat.add_comm]
    rw [hconcat, List.foldlM_append, ih (by omega)]
    simp only [List.foldlM_cons, List.foldlM_nil, Option.bind_eq_bind, Option.some_bind]
    have hdlen : (buf.drop 1).length = BUFFER_HEIGHT - 1 := by
      simp [List.length_drop, hlen]
    have htlen : ((buf.drop 1).take m).length = m := by
      simp only [List.length_take]
      omega
    have hm1 : m + 1 < buf.length := by
      rw [hlen]
      unfold BUFFER_HEIGHT at hm ⊢
      omega
    have hm0 : m < buf.length := by omega
    have hsrc : ((buf.drop 1).take m ++ buf.drop m)[m + 1]? = some (buf[m + 1]) := by
      rw [List.getElem?_append, htlen, if_neg (by omega)]
      have hidx : m + 1 - m = 1 := by omega
      rw [hidx, List.getElem?_drop, List.getElem?_eq_getElem hm1]
    have hdst : ((buf.drop 1).take m ++ buf.drop m)[m]? = some (buf[m]) := by
      rw [List.getElem?_append, htlen, if_neg (by omega), Nat.sub_self, List.getElem?_drop]
      rw [Nat.add_zero, List.getElem?_eq_getElem hm0]
    have hsl : (buf[m + 1]).length = BUFFER_WIDTH := hrows _ (List.getElem_mem hm1)
    have hdl : (buf[m]).length = BUFFER_WIDTH := hrows _ (List.getElem_mem hm0)
    have hcopy := copyLoop_eq (m + 1) ((buf.drop 1).take m ++ buf.drop m)
      (buf[m + 1]) (buf[m]) (by omega) hsrc
      (by simpa using hdst) (by rw [hsl, hdl]) BUFFER_WIDTH (by simp [hsl])
    simp only [Option.bind_eq_bind, Nat.add_sub_cancel] at hcopy ⊢
    rw [hcopy]
    simp only [Option.some_bind]
    have h80 : (buf[m + 1]).take BUFFER_WIDTH ++ (buf[m]).drop BUFFER_WIDTH = buf[m + 1] := by
      rw [List.take_of_length_le (by simp [hsl]), List.drop_eq_nil_of_le (by simp [hdl]),
        List.append_nil]
    rw [h80]
    have hfinal : ((buf.drop 1).take m ++ buf.drop m).set m (buf[m + 1])
        = (buf.drop 1).take (m + 1) ++ buf.drop (m + 1) := by
      have hstep : buf.drop m = buf[m] :: buf.drop (m + 1) := List.drop_eq_getElem_cons hm0
      have htk : (buf.drop 1).take (m + 1) = (buf.drop 1).take m ++ [buf[m + 1]] := by
        rw [List.take_succ, List.getElem?_drop]
        have hidx : 1 + m = m + 1 := by omega
        rw [hidx, List.getElem?_eq_getElem hm1]
        rfl
      rw [List.set_append, htlen, if_neg (by omega), Nat.sub_self, hstep, List.set_cons_zero,
        htk, List.append_assoc, List.singleton_append]
    rw [hfinal]
    rfl

/-! Closed forms of the writer operations on well-formed buffers, and the
well-formedness preservation lemmas. -/

theorem wf_set_row (buf : Buffer) (row : Nat) (r : List ScreenChar)
    (hwf : Buffer.wf buf) (hr : r.length = BUFFER_WIDTH) : Buffer.wf (buf.set row r) := by
  obtain ⟨hlen, hrows⟩ := hwf
  constructor
  · rw [List.length_set, hlen]
  · intro x hx
    rcases List.mem_or_eq_of_mem_set hx with h | h
    · exact hrows x h
    · rw [h]
      exact hr

theorem wf_scrolled (buf : Buffer) (r : List ScreenChar)
    (hwf : Buffer.wf buf) (hr : r.length = BUFFER_WIDTH) : Buffer.wf (buf.drop 1 ++ [r]) := by
  obtain ⟨hlen, hrows⟩ := hwf
  constructor
  · rw [List.length_append, List.length_drop, hlen, List.length_singleton]
    decide
  · intro x hx
    rcases List.mem_append.mp hx with h | h
    · exact hrows x (List.drop_subset _ _ h)
    · rw [List.mem_singleton.mp h]
      exact hr

theorem clear_row_eq (w : Writer) (row : Nat) (r : List ScreenChar)
    (hr : w.buffer[row]? = some r) (hlen : r.length = BUFFER_WIDTH) :
    w.clear_row row = some { w with
      buffer := w.buffer.set row (List.replicate BUFFER_WIDTH (blankChar w.color_code)) } := by
  have h := clearLoop_eq (blankChar w.color_code) row w.buffer r hr BUFFER_WIDTH
    (Nat.le_of_eq hlen.symm)
  have hdrop : r.drop BUFFER_WIDTH = [] := by
    rw [← hlen, List.drop_length]
  rw [hdrop, List.append_nil] at h
  simp only [Writer.clear_row, blankChar] at h ⊢
  rw [h]
  rfl

theorem new_line_eq (w : Writer) (hwf : Buffer.wf w.buffer) :
    w.new_line = some
      { column_position := 0
        color_code := w.color_code
        buffer := w.buffer.drop 1 ++ [List.replicate BUFFER_WIDTH (blankChar w.color_code)]
        scrolls := w.scrolls + 1 } := by
  obtain ⟨hlen, hrows⟩ := hwf
  have hscroll := scrollLoop_eq w.buffer hlen hrows (BUFFER_HEIGHT - 1) (Nat.le_refl _)
  have hdlen : (w.buffer.drop 1).length = BUFFER_HEIGHT - 1 := by
    rw [List.length_drop, hlen]
  rw [List.take_of_length_le (Nat.le_of_eq hdlen)] at hscroll
  have h24 : BUFFER_HEIGHT - 1 < w.buffer.length := by
    rw [hlen]
    decide
  have hB24 : (w.buffer.drop 1 ++ w.buffer.drop (BUFFER_HEIGHT - 1))[BUFFER_HEIGHT - 1]?
      = some (w.buffer[BUFFER_HEIGHT - 1]) := by
    rw [List.getElem?_append, hdlen, if_neg (Nat.lt_irrefl _), Nat.sub_self,
      List.getElem?_drop, Nat.add_zero, List.getElem?_eq_getElem h24]
  have hr80 : (w.buffer[BUFFER_HEIGHT - 1]).length = BUFFER_WIDTH :=
    hrows _ (List.getElem_mem h24)
  have hstep : w.buffer.drop (BUFFER_HEIGHT - 1)
      = [w.buffer[BUFFER_HEIGHT - 1]] := by
    have hd : w.buffer.drop (BUFFER_HEIGHT - 1)
        = w.buffer[BUFFER_HEIGHT - 1] :: w.buffer.drop BUFFER_HEIGHT :=
      List.drop_eq_getElem_cons h24
    rw [hd, List.drop_eq_nil_of_le (Nat.le_of_eq hlen)]
  have hclear : Writer.clear_row
      { column_position := w.column_position
        color_code := w.color_code
        buffer := w.buffer.drop 1 ++ w.buffer.drop (BUFFER_HEIGHT - 1)
        scrolls := w.scrolls + 1 }
      (BUFFER_HEIGHT - 1) = some
      { column_position := w.column_position
        color_code := w.color_code
        buffer := (w.buffer.drop 1 ++ w.buffer.drop (BUFFER_HEIGHT - 1)).set (BUFFER_HEIGHT - 1)
          (List.replicate BUFFER_WIDTH (blankChar w.color_code))
        scrolls := w.scrolls + 1 } :=
    clear_row_eq
      { column_position := w.column_position
        color_code := w.color_code
        buffer := w.buffer.drop 1 ++ w.buffer.drop (BUFFER_HEIGHT - 1)
        scrolls := w.scrolls + 1 }
      (BUFFER_HEIGHT - 1) (w.buffer[BUFFER_HEIGHT - 1]) hB24 hr80
  have hset : (w.buffer.drop 1 ++ w.buffer.drop (BUFFER_HEIGHT - 1)).set (BUFFER_HEIGHT - 1)
      (List.replicate BUFFER_WIDTH (blankChar w.color_code))
      = w.buffer.drop 1 ++ [List.replicate BUFFER_WIDTH (blankChar w.color_code)] := by
    rw [List.set_append, hdlen, if_neg (Nat.lt_irrefl _), Nat.sub_self, hstep,
      List.set_cons_zero]
  simp only [Writer.new_line, Option.bind_eq_bind]
  simp only [Option.bind_eq_bind] at hscroll
  rw [hscroll, Option.some_bind, hclear, Option.some_bind]
  simp only [Option.pure_def, hset]

theorem write_byte_eq_no_wrap (w : Writer) (byte : Nat) (r : List ScreenChar)
    (hb : byte ≠ 0x0a) (hcol : w.column_position < BUFFER_WIDTH)
    (hr : w.buffer[BUFFER_HEIGHT - 1]? = some r) (hlen : r.length = BUFFER_WIDTH) :
    w.write_byte byte = some { w with
      buffer := w.buffer.set (BUFFER_HEIGHT - 1)
        (r.set w.column_position { ascii_character := byte, color_code := w.color_code }),
      column_position := w.column_position + 1 } := by
  have hw := @writeCell_eq_some w.buffer (BUFFER_HEIGHT - 1) w.column_position r
    { ascii_character := byte, color_code := w.color_code } hr (by rw [hlen]; exact hcol)
  simp only [Writer.write_byte, if_neg hb, if_neg (Nat.not_le.mpr hcol),
    Option.bind_eq_bind, Option.some_bind, pure_bind, hw]
  rfl

theorem write_byte_eq_wrap (w : Writer) (byte : Nat)
    (hb : byte ≠ 0x0a) (hcol : BUFFER_WIDTH ≤ w.column_position) (hwf : Buffer.wf w.buffer) :
    w.write_byte byte = some
      { column_position := 1
        color_code := w.color_code
        buffer := w.buffer.drop 1
          ++ [(List.replicate BUFFER_WIDTH (blankChar w.color_code)).set 0
            { ascii_character := byte, color_code := w.color_code }]
        scrolls := w.scrolls + 1 } := by
  have hdlen : (w.buffer.drop 1).length = BUFFER_HEIGHT - 1 := by
    rw [List.length_drop, hwf.1]
  have hg : (w.buffer.drop 1 ++ [List.replicate BUFFER_WIDTH (blankChar w.color_code)])[BUFFER_HEIGHT - 1]?
      = some (List.replicate BUFFER_WIDTH (blankChar w.color_code)) := by
    rw [List.getElem?_append, hdlen, if_neg (Nat.lt_irrefl _), Nat.sub_self]
    rfl
  have hw := @writeCell_eq_some
    (w.buffer.drop 1 ++ [List.replicate BUFFER_WIDTH (blankChar w.color_code)])
    (BUFFER_HEIGHT - 1) 0 (List.replicate BUFFER_WIDTH (blankChar w.color_code))
    { ascii_character := byte, color_code := w.color_code } hg
    (by rw [List.length_replicate]; decide)
  have hset2 : (w.buffer.drop 1 ++ [List.replicate BUFFER_WIDTH (blankChar w.color_code)]).set
      (BUFFER_HEIGHT - 1)
      ((List.replicate BUFFER_WIDTH (blankChar w.color_code)).set 0
        { ascii_character := byte, color_code := w.color_code })
      = w.buffer.drop 1 ++ [(List.replicate BUFFER_WIDTH (blankChar w.color_code)).set 0
        { ascii_character := byte, color_code := w.color_code }] := by
    rw [List.set_append, hdlen, if_neg (Nat.lt_irrefl _), Nat.sub_self, List.set_cons_zero]
  simp only [Writer.write_byte, if_neg hb, if_pos hcol, new_line_eq w hwf,
    Option.bind_eq_bind, Option.some_bind, hw, hset2]
  rfl

theorem write_string_nil (w : Writer) : w.write_string [] = some w :=
  rfl

theorem write_string_cons (w : Writer) (b : Nat) (s : List Nat) :
    w.write_string (b :: s)
      = (if (0x20 ≤ b ∧ b ≤ 0x7e) ∨ b = 0x0a then w.write_byte b else w.write_byte 0xfe).bind
          (fun w2 => w2.write_string s) := by
  simp only [Writer.write_string, List.foldlM_cons, Option.bind_eq_bind]

theorem write_string_append_eq (w : Writer) (s1 s2 : List Nat) :
    w.write_string (s1 ++ s2) = (w.write_string s1).bind (fun w2 => w2.write_string s2) := by
  simp only [Writer.write_string, List.foldlM_append, Option.bind_eq_bind]

theorem write_string_singleton (w : Writer) (b : Nat) :
    w.write_string [b]
      = if (0x20 ≤ b ∧ b ≤ 0x7e) ∨ b = 0x0a then w.write_byte b else w.write_byte 0xfe := by
  rw [write_string_cons]
  rcases Decidable.em ((0x20 ≤ b ∧ b ≤ 0x7e) ∨ b = 0x0a) with h | h
  · rw [if_pos h]
    simp [Writer.write_string]
  · rw [if_neg h]
    simp [Writer.write_string]

theorem write_string_fill (s : List Nat) : ∀ (w : Writer) (r : List ScreenChar),
    Buffer.wf w.buffer → w.buffer[BUFFER_HEIGHT - 1]? = some r →
    w.column_position + s.length ≤ BUFFER_WIDTH →
    (∀ b ∈ s, 0x20 ≤ b ∧ b ≤ 0x7e) →
    w.write_string s = some { w with
      column_position := w.column_position + s.length,
      buffer := w.buffer.set (BUFFER_HEIGHT - 1)
        (r.take w.column_position
          ++ s.map (fun b => { ascii_character := b, color_code := w.color_code })
          ++ r.drop (w.column_position + s.length)) } := by
  induction s with
  | nil =>
    intro w r hwf hr hcol hs
    simp only [List.length_nil, Nat.add_zero, List.map_nil, List.append_nil, List.nil_append]
    rw [List.take_append_drop, set_getElem_self _ _ _ hr]
    rfl
  | cons b s ih =>
    intro w r hwf hr hcol hs
    have hb : 0x20 ≤ b ∧ b ≤ 0x7e := hs b (List.mem_cons_self b s)
    have hbne : b ≠ 0x0a := by omega
    have hr80 : r.length = BUFFER_WIDTH := hwf.2 r (mem_of_getElem_some hr)
    have hcollt : w.column_position < BUFFER_WIDTH := by
      have hl := hcol
      rw [List.length_cons] at hl
      omega
    have hrange : w.column_position < r.length := by
      rw [hr80]
      exact hcollt
    have hb24 : BUFFER_HEIGHT - 1 < w.buffer.length := (List.getElem?_eq_some.mp hr).1
    rw [write_string_cons, if_pos (Or.inl hb),
      write_byte_eq_no_wrap w b r hbne hcollt hr hr80, Option.some_bind]
    rw [ih { w with
        buffer := w.buffer.set (BUFFER_HEIGHT - 1)
          (r.set w.column_position { ascii_character := b, color_code := w.color_code }),
        column_position := w.column_position + 1 }
      (r.set w.column_position { ascii_character := b, color_code := w.color_code })
      (wf_set_row _ _ _ hwf (by rw [List.length_set, hr80]))
      (List.getElem?_set_self hb24)
      (by rw [List.length_cons] at hcol; simp only []; omega)
      (fun x hx => hs x (List.mem_cons_of_mem b hx))]
    simp only [List.set_set]
    have htk : (r.set w.column_position { ascii_character := b, color_code := w.color_code }).take
        (w.column_position + 1)
        = r.take w.column_position ++ [{ ascii_character := b, color_code := w.color_code }] := by
      rw [List.take_succ, take_set_of_le r w.column_position w.column_position _ (Nat.le_refl _),
        List.getElem?_set_self hrange]
      rfl
    have hdp : (r.set w.column_position { ascii_character := b, color_code := w.color_code }).drop
        (w.column_position + 1 + s.length)
        = r.drop (w.column_position + 1 + s.length) := by
      rw [List.drop_set, if_pos (by omega)]
    have harith : w.column_position + 1 + s.length = w.column_position + (s.length + 1) := by
      omega
    rw [htk, hdp, harith]
    have hrow : (r.take w.column_position
          ++ [{ ascii_character := b, color_code := w.color_code }])
          ++ s.map (fun x => { ascii_character := x, color_code := w.color_code })
          ++ r.drop (w.column_position + (s.length + 1))
        = r.take w.column_position
          ++ ({ ascii_character := b, color_code := w.color_code }
              :: s.map (fun x => { ascii_character := x, color_code := w.color_code }))
          ++ r.drop (w.column_position + (s.length + 1)) := by
      rw [List.append_assoc (r.take w.column_position), List.singleton_append]
    rw [hrow]
    rfl

/-! Column bookkeeping and frame lemmas that hold on every buffer, even an
ill-formed one (they only inspect the shape of the operations). -/

theorem new_line_column (w w2 : Writer) (h : w.new_line = some w2) :
    w2.column_position = 0 := by
  simp only [Writer.new_line, Option.bind_eq_bind, Option.bind_eq_some, Option.pure_def,
    Option.some.injEq] at h
  obtain ⟨buf, hbuf, w3, hw3, hw2⟩ := h
  rw [← hw2]

theorem clear_row_column (w w2 : Writer) (row : Nat) (h : w.clear_row row = some w2) :
    w2.column_position = w.column_position := by
  simp only [Writer.clear_row, Option.bind_eq_bind, Option.bind_eq_some, Option.pure_def,
    Option.some.injEq] at h
  obtain ⟨buf, hbuf, hw2⟩ := h
  rw [← hw2]

theorem write_byte_column_le (w w2 : Writer) (b : Nat) (h : w.write_byte b = some w2) :
    w2.column_position ≤ BUFFER_WIDTH := by
  by_cases hb : b = 0x0a
  · rw [hb] at h
    simp only [Writer.write_byte, if_pos rfl] at h
    rw [new_line_column w w2 h]
    exact Nat.zero_le _
  · by_cases hc : BUFFER_WIDTH ≤ w.column_position
    · simp only [Writer.write_byte, if_neg hb, if_pos hc, Option.bind_eq_bind,
        Option.bind_eq_some, Option.pure_def, Option.some.injEq] at h
      obtain ⟨w1, hw1, buf, hbuf, hw2⟩ := h
      have h0 : w1.column_position = 0 := new_line_column w w1 hw1
      rw [← hw2]
      show w1.column_position + 1 ≤ BUFFER_WIDTH
      rw [h0]
      decide
    · simp only [Writer.write_byte, if_neg hb, if_neg hc, Option.bind_eq_bind,
        Option.bind_eq_some, Option.pure_def, Option.some.injEq] at h
      obtain ⟨w1, hw1, buf, hbuf, hw2⟩ := h
      obtain rfl : w = w1 := hw1
      rw [← hw2]
      show w.column_position + 1 ≤ BUFFER_WIDTH
      omega

theorem write_string_column_le (s : List Nat) : ∀ (w w2 : Writer),
    w.column_position ≤ BUFFER_WIDTH → w.write_string s = some w2 →
    w2.column_position ≤ BUFFER_WIDTH := by
  induction s with
  | nil =>
    intro w w2 h hw
    obtain rfl : w = w2 := Option.some.inj hw
    exact h
  | cons b s ih =>
    intro w w2 h hw
    rw [write_string_cons] at hw
    obtain ⟨w1, hw1, hrest⟩ := Option.bind_eq_some.mp hw
    by_cases hcond : (0x20 ≤ b ∧ b ≤ 0x7e) ∨ b = 0x0a
    · rw [if_pos hcond] at hw1
      exact ih w1 w2 (write_byte_column_le w w1 b hw1) hrest
    · rw [if_neg hcond] at hw1
      exact ih w1 w2 (write_byte_column_le w w1 0xfe hw1) hrest

theorem write_byte_frame (w w2 : Writer) (b : Nat) (hb : b ≠ 0x0a)
    (hcol : w.column_position < BUFFER_WIDTH) (h : w.write_byte b = some w2) :
    ∀ row, row ≠ BUFFER_HEIGHT - 1 → w2.buffer[row]? = w.buffer[row]? := by
  intro row hrow
  simp only [Writer.write_byte, if_neg hb, if_neg (Nat.not_le.mpr hcol),
    Option.bind_eq_bind, Option.pure_def, Option.some_bind, Option.bind_eq_some,
    Option.some.injEq] at h
  obtain ⟨buf, hbuf, hw2⟩ := h
  simp only [Buffer.writeCell] at hbuf
  split at hbuf
  · exact absurd hbuf (by simp)
  · split at hbuf
    · obtain rfl := Option.some.inj hbuf
      rw [← hw2]
      exact List.getElem?_set_ne (fun hcontra => hrow hcontra.symm)
    · exact absurd hbuf (by simp)

/-! Trace lemmas for the test harness. -/

theorem run_tests_all_ok (tests : List TestCase)
    (h : ∀ tc ∈ tests, tc.body = Except.ok ()) :
    run_tests tests
      = (tests.flatMap fun tc => [Event.serial (tc.name ++ "...\t"), Event.serial "[ok]\n"])
        ++ [Event.exitSignal QemuExitCode.Success] := by
  induction tests with
  | nil => rfl
  | cons t ts ih =>
    have ht : t.body = Except.ok () := h t (List.mem_cons_self t ts)
    rw [List.flatMap_cons]
    simp only [run_tests, TestCase.run, ht]
    rw [ih (fun tc htc => h tc (List.mem_cons_of_mem t htc))]
    simp [List.append_assoc]

theorem run_tests_first_fail (pre : List TestCase) (t : TestCase) (post : List TestCase)
    (info : String) (hpre : ∀ tc ∈ pre, tc.body = Except.ok ())
    (ht : t.body = Except.error info) :
    run_tests (pre ++ t :: post)
      = (pre.flatMap fun tc => [Event.serial (tc.name ++ "...\t"), Event.serial "[ok]\n"])
        ++ (Event.serial (t.name ++ "...\t") :: test_panic_handler info) := by
  induction pre with
  | nil =>
    simp only [List.nil_append, run_tests, TestCase.run, ht, List.flatMap_nil]
    rfl
  | cons p ps ih =>
    have hp : p.body = Except.ok () := hpre p (List.mem_cons_self p ps)
    rw [List.flatMap_cons, List.cons_append]
    simp only [run_tests, TestCase.run, hp]
    rw [ih (fun tc htc => hpre tc (List.mem_cons_of_mem p htc))]
    simp [List.append_assoc]

theorem countP_flatMap_serial (tests : List TestCase) :
    (tests.flatMap fun tc => [Event.serial (tc.name ++ "...\t"), Event.serial "[ok]\n"]).countP
      Event.isExit = 0 := by
  rw [List.countP_eq_zero]
  intro a ha
  obtain ⟨tc, _, hmem⟩ := List.mem_flatMap.mp ha
  simp only [List.mem_cons, List.mem_singleton, List.not_mem_nil, or_false] at hmem
  rcases hmem with rfl | rfl
  · simp [Event.isExit]
  · simp [Event.isExit]

/-- C5: the two exit codes are distinct fixed integers and, under the host
convention status = (value << 1) | 1 applied to the 4-byte value written to
port 0xf4, Success yields host status 0x21 and Failed yields 0x23. -/
theorem C5_exit_codes :
    QemuExitCode.Success.toU32 = 0x10
    ∧ QemuExitCode.Failed.toU32 = 0x11
    ∧ QemuExitCode.Success.toU32 ≠ QemuExitCode.Failed.toU32
    ∧ exit_qemu QemuExitCode.Success = { port := 0xf4, value := 0x10 }
    ∧ exit_qemu QemuExitCode.Failed = { port := 0xf4, value := 0x11 }
    ∧ host_status (exit_qemu QemuExitCode.Success).value = 0x21
    ∧ host_status (exit_qemu QemuExitCode.Failed).value = 0x23 := by
  decide

/-- C6: write_byte on the newline byte 0x0a is exactly new_line; in
particular the column after this path is whatever new_line leaves, with no
extra change from write_byte itself. -/
theorem C6_write_byte_newline (w : Writer) :
    w.write_byte 0x0a = w.new_line
    ∧ (w.write_byte 0x0a).map Writer.column_position
        = w.new_line.map Writer.column_position := by
  constructor
  · simp [Writer.write_byte]
  · simp [Writer.write_byte]

/-- C1: on a well-formed buffer, new_line shifts the whole buffer up one
row (for every row r in [1, 24] the new content of row r-1 equals the old
content of row r; row 0 is discarded), fills the new last row with blank
cells (ascii 0x20) carrying the current color code, and resets the column
to 0. -/
theorem C1_new_line_scroll (w : Writer) (hwf : Buffer.wf w.buffer) :
    w.new_line = some
      { column_position := 0
        color_code := w.color_code
        buffer := w.buffer.drop 1 ++ [List.replicate BUFFER_WIDTH (blankChar w.color_code)]
        scrolls := w.scrolls + 1 }
    ∧ (∀ r, 1 ≤ r → r ≤ BUFFER_HEIGHT - 1 →
        w.new_line.bind (fun w2 => w2.buffer[r - 1]?) = w.buffer[r]?)
    ∧ w.new_line.bind (fun w2 => w2.buffer[BUFFER_HEIGHT - 1]?)
        = some (List.replicate BUFFER_WIDTH (blankChar w.color_code))
    ∧ w.new_line.map Writer.column_position = some 0 := by
  have heq := new_line_eq w hwf
  have hdlen : (w.buffer.drop 1).length = BUFFER_HEIGHT - 1 := by
    rw [List.length_drop, hwf.1]
  refine ⟨heq, ?_, ?_, ?_⟩
  · intro r h1 h2
    rw [heq, Option.some_bind]
    show (w.buffer.drop 1 ++ [List.replicate BUFFER_WIDTH (blankChar w.color_code)])[r - 1]?
      = w.buffer[r]?
    rw [List.getElem?_append, hdlen, if_pos (by omega), List.getElem?_drop]
    congr 1
    omega
  · rw [heq, Option.some_bind]
    show (w.buffer.drop 1 ++ [List.replicate BUFFER_WIDTH (blankChar w.color_code)])[BUFFER_HEIGHT - 1]?
      = some (List.replicate BUFFER_WIDTH (blankChar w.color_code))
    rw [List.getElem?_append, hdlen, if_neg (Nat.lt_irrefl _), Nat.sub_self]
    rfl
  · rw [heq]
    rfl

/-- C1 witness: the scroll theorem evaluated at a concrete writer, with
the row-shift conjunct instantiated at row 5. -/
theorem C1_new_line_scroll_witness :
    testWriter.new_line = some
      { column_position := 0
        color_code := testWriter.color_code
        buffer := testWriter.buffer.drop 1
          ++ [List.replicate BUFFER_WIDTH (blankChar testWriter.color_code)]
        scrolls := testWriter.scrolls + 1 }
    ∧ testWriter.new_line.bind (fun w2 => w2.buffer[4]?) = testWriter.buffer[5]? :=
  ⟨(C1_new_line_scroll testWriter (by decide)).1,
   (C1_new_line_scroll testWriter (by decide)).2.1 5 (by decide) (by decide)⟩

/-- C2: write_string processes bytes independently (append decomposition);
a byte in [0x20, 0x7e] is written verbatim into the cell it produces, the
newline byte triggers a line break instead of a cell write, and any other
byte reaches write_byte as the placeholder 0xfe and yields a 0xfe cell. -/
theorem C2_write_string_filter :
    (∀ (w : Writer) (s1 s2 : List Nat),
      w.write_string (s1 ++ s2) = (w.write_string s1).bind fun w2 => w2.write_string s2)
    ∧ (∀ (w : Writer) (b : Nat) (r : List ScreenChar),
        w.buffer[BUFFER_HEIGHT - 1]? = some r → r.length = BUFFER_WIDTH →
        w.column_position < BUFFER_WIDTH → 0x20 ≤ b → b ≤ 0x7e →
        w.write_string [b] = some { w with
          buffer := w.buffer.set (BUFFER_HEIGHT - 1)
            (r.set w.column_position { ascii_character := b, color_code := w.color_code }),
          column_position := w.column_position + 1 })
    ∧ (∀ w : Writer, w.write_string [0x0a] = w.new_line)
    ∧ (∀ (w : Writer) (b : Nat), ¬(0x20 ≤ b ∧ b ≤ 0x7e) → b ≠ 0x0a →
        w.write_string [b] = w.write_byte 0xfe)
    ∧ (∀ (w : Writer) (b : Nat) (r : List ScreenChar),
        w.buffer[BUFFER_HEIGHT - 1]? = some r → r.length = BUFFER_WIDTH →
        w.column_position < BUFFER_WIDTH → ¬(0x20 ≤ b ∧ b ≤ 0x7e) → b ≠ 0x0a →
        w.write_string [b] = some { w with
          buffer := w.buffer.set (BUFFER_HEIGHT - 1)
            (r.set w.column_position { ascii_character := 0xfe, color_code := w.color_code }),
          column_position := w.column_position + 1 }) := by
  refine ⟨write_string_append_eq, ?_, ?_, ?_, ?_⟩
  · intro w b r hr hlen hcol hb1 hb2
    rw [write_string_singleton, if_pos (Or.inl ⟨hb1, hb2⟩)]
    exact write_byte_eq_no_wrap w b r (by omega) hcol hr hlen
  · intro w
    rw [write_string_singleton, if_pos (Or.inr rfl)]
    simp [Writer.write_byte]
  · intro w b hb hbne
    rw [write_string_singleton, if_neg (fun hor => hor.elim hb hbne)]
  · intro w b r hr hlen hcol hb hbne
    rw [write_string_singleton, if_neg (fun hor => hor.elim hb hbne)]
    exact write_byte_eq_no_wrap w 0xfe r (by decide) hcol hr hlen

/-- C2 witness: the filter theorem evaluated at a concrete writer, with a
printable byte 0x41, the newline, and the non-printable byte 0x01. -/
theorem C2_write_string_filter_witness :
    (testWriter.write_string ([0x48] ++ [0x49])
      = (testWriter.write_string [0x48]).bind fun w2 => w2.write_string [0x49])
    ∧ testWriter.write_string [0x41] = some { testWriter with
        buffer := testWriter.buffer.set (BUFFER_HEIGHT - 1)
          ((List.replicate BUFFER_WIDTH { ascii_character := 0x20, color_code := 0x0f }).set
            testWriter.column_position
            { ascii_character := 0x41, color_code := testWriter.color_code }),
        column_position := testWriter.column_position + 1 }
    ∧ testWriter.write_string [0x0a] = testWriter.new_line
    ∧ testWriter.write_string [0x01] = testWriter.write_byte 0xfe
    ∧ testWriter.write_string [0x01] = some { testWriter with
        buffer := testWriter.buffer.set (BUFFER_HEIGHT - 1)
          ((List.replicate BUFFER_WIDTH { ascii_character := 0x20, color_code := 0x0f }).set
            testWriter.column_position
            { ascii_character := 0xfe, color_code := testWriter.color_code }),
        column_position := testWriter.column_position + 1 } :=
  ⟨C2_write_string_filter.1 testWriter [0x48] [0x49],
   C2_write_string_filter.2.1 testWriter 0x41
     (List.replicate BUFFER_WIDTH { ascii_character := 0x20, color_code := 0x0f })
     (by decide) (by decide) (by decide) (by decide) (by decide),
   C2_write_string_filter.2.2.1 testWriter,
   C2_write_string_filter.2.2.2.1 testWriter 0x01 (by decide) (by decide),
   C2_write_string_filter.2.2.2.2 testWriter 0x01
     (List.replicate BUFFER_WIDTH { ascii_character := 0x20, color_code := 0x0f })
     (by decide) (by decide) (by decide) (by decide) (by decide)⟩

/-- C3: starting at column 0 on a well-formed buffer, writing exactly 80
printable non-newline bytes fills columns 0..79 of the last row with no
scroll (the ghost scroll counter is unchanged); one further printable byte
triggers exactly one scroll and lands at column 0 of the new last row. -/
theorem C3_row_fill_and_wrap (w : Writer) (s : List Nat) (b : Nat) (r : List ScreenChar)
    (hwf : Buffer.wf w.buffer) (hcol : w.column_position = 0)
    (hr : w.buffer[BUFFER_HEIGHT - 1]? = some r)
    (hslen : s.length = BUFFER_WIDTH)
    (hs : ∀ x ∈ s, 0x20 ≤ x ∧ x ≤ 0x7e)
    (hb1 : 0x20 ≤ b) (hb2 : b ≤ 0x7e) :
    w.write_string s = some { w with
      column_position := BUFFER_WIDTH,
      buffer := w.buffer.set (BUFFER_HEIGHT - 1)
        (s.map (fun x => { ascii_character := x, color_code := w.color_code })) }
    ∧ (w.write_string s).map Writer.scrolls = some w.scrolls
    ∧ ((w.write_string s).bind fun w1 => w1.write_byte b) = some
      { column_position := 1
        color_code := w.color_code
        buffer := (w.buffer.set (BUFFER_HEIGHT - 1)
            (s.map (fun x => { ascii_character := x, color_code := w.color_code }))).drop 1
          ++ [(List.replicate BUFFER_WIDTH (blankChar w.color_code)).set 0
            { ascii_character := b, color_code := w.color_code }]
        scrolls := w.scrolls + 1 }
    ∧ (((w.write_string s).bind fun w1 => w1.write_byte b).map Writer.scrolls)
        = some (w.scrolls + 1) := by
  have hr80 : r.length = BUFFER_WIDTH := hwf.2 r (mem_of_getElem_some hr)
  have hfill := write_string_fill s w r hwf hr (by omega) hs
  have hrow : r.take 0
        ++ s.map (fun x => { ascii_character := x, color_code := w.color_code })
        ++ r.drop (0 + BUFFER_WIDTH)
      = s.map (fun x => { ascii_character := x, color_code := w.color_code }) := by
    rw [List.take_zero, List.nil_append, Nat.zero_add, ← hr80, List.drop_length,
      List.append_nil]
  rw [hcol, hslen, hrow, Nat.zero_add] at hfill
  have hwf1 : Buffer.wf (w.buffer.set (BUFFER_HEIGHT - 1)
      (s.map (fun x => { ascii_character := x, color_code := w.color_code }))) :=
    wf_set_row _ _ _ hwf (by rw [List.length_map, hslen])
  have hwrap := write_byte_eq_wrap
    { w with
      column_position := BUFFER_WIDTH,
      buffer := w.buffer.set (BUFFER_HEIGHT - 1)
        (s.map (fun x => { ascii_character := x, color_code := w.color_code })) }
    b (by omega) (Nat.le_refl _) hwf1
  refine ⟨hfill, ?_, ?_, ?_⟩
  · rw [hfill]
    rfl
  · rw [hfill, Option.some_bind]
    exact hwrap
  · rw [hfill, Option.some_bind, hwrap]
    rfl

/-- C3 witness: 80 letters then one more, at a concrete writer; the ghost
scroll counter stays 0 through the fill and becomes 1 on the 81st byte. -/
theorem C3_row_fill_and_wrap_witness :
    (testWriter.write_string (List.replicate 80 0x41)).map Writer.scrolls = some 0
    ∧ ((testWriter.write_string (List.replicate 80 0x41)).bind
        fun w1 => w1.write_byte 0x42).map Writer.scrolls = some 1 :=
  ⟨(C3_row_fill_and_wrap testWriter (List.replicate 80 0x41) 0x42
      (List.replicate BUFFER_WIDTH { ascii_character := 0x20, color_code := 0x0f })
      (by decide) rfl (by decide) (by decide) (by decide) (by decide) (by decide)).2.1,
   (C3_row_fill_and_wrap testWriter (List.replicate 80 0x41) 0x42
      (List.replicate BUFFER_WIDTH { ascii_character := 0x20, color_code := 0x0f })
      (by decide) rfl (by decide) (by decide) (by decide) (by decide) (by decide)).2.2.2⟩

/-- C4: test_runner executes the registered cases strictly in registration
order; if every case returns normally the trace is the header, then name
and ok marker per case in order, then exactly one Success signal after the
loop; if a case panics, control goes to test_panic_handler, which signals
Failed, and the remaining cases never execute (the trace depends on them
only through the printed count). -/
theorem C4_test_runner_order (tests pre post : List TestCase) (t : TestCase) (info : String) :
    ((∀ tc ∈ tests, tc.body = Except.ok ()) →
      test_runner tests
        = [Event.serial ("Running " ++ toString tests.length ++ " tests\n")]
          ++ (tests.flatMap fun tc => [Event.serial (tc.name ++ "...\t"), Event.serial "[ok]\n"])
          ++ [Event.exitSignal QemuExitCode.Success]
      ∧ (test_runner tests).countP Event.isExit = 1)
    ∧ ((∀ tc ∈ pre, tc.body = Except.ok ()) → t.body = Except.error info →
      test_runner (pre ++ t :: post)
        = [Event.serial ("Running " ++ toString (pre.length + (post.length + 1)) ++ " tests\n")]
          ++ (pre.flatMap fun tc => [Event.serial (tc.name ++ "...\t"), Event.serial "[ok]\n"])
          ++ [Event.serial (t.name ++ "...\t")]
          ++ test_panic_handler info
      ∧ (test_runner (pre ++ t :: post)).countP Event.isExit = 1
      ∧ (test_runner (pre ++ t :: post)).getLast?
          = some (Event.exitSignal QemuExitCode.Failed)) := by
  constructor
  · intro h
    have hclosed : test_runner tests
        = [Event.serial ("Running " ++ toString tests.length ++ " tests\n")]
          ++ (tests.flatMap fun tc => [Event.serial (tc.name ++ "...\t"), Event.serial "[ok]\n"])
          ++ [Event.exitSignal QemuExitCode.Success] := by
      rw [test_runner, run_tests_all_ok tests h]
      rfl
    refine ⟨hclosed, ?_⟩
    rw [hclosed]
    simp only [List.countP_append, countP_flatMap_serial]
    rfl
  · intro hpre ht
    have hlen : (pre ++ t :: post).length = pre.length + (post.length + 1) := by
      rw [List.length_append, List.length_cons]
    have hclosed : test_runner (pre ++ t :: post)
        = [Event.serial ("Running " ++ toString (pre.length + (post.length + 1)) ++ " tests\n")]
          ++ (pre.flatMap fun tc => [Event.serial (tc.name ++ "...\t"), Event.serial "[ok]\n"])
          ++ [Event.serial (t.name ++ "...\t")]
          ++ test_panic_handler info := by
      rw [test_runner, run_tests_first_fail pre t post info hpre ht, hlen]
      simp [List.append_assoc]
    refine ⟨hclosed, ?_, ?_⟩
    · rw [hclosed]
      simp only [List.countP_append, countP_flatMap_serial]
      rfl
    · rw [hclosed]
      simp only [List.getLast?_append]
      rfl

/-- C4 witness: a single passing case yields the ok trace with one Success
signal; with cases a, b, c where b panics, the last event is the Failed
signal and the name of c never appears. -/
theorem C4_test_runner_order_witness :
    test_runner [{ name := "trivial_assertion", body := Except.ok () }]
      = [Event.serial ("Running " ++ toString
            ([{ name := "trivial_assertion", body := Except.ok () }] : List TestCase).length
            ++ " tests\n")]
        ++ (([{ name := "trivial_assertion", body := Except.ok () }] : List TestCase).flatMap
            fun tc => [Event.serial (tc.name ++ "...\t"), Event.serial "[ok]\n"])
        ++ [Event.exitSignal QemuExitCode.Success]
    ∧ (test_runner [{ name := "a", body := Except.ok () },
        { name := "b", body := Except.error "boom" },
        { name := "c", body := Except.ok () }]).getLast?
      = some (Event.exitSignal QemuExitCode.Failed) :=
  ⟨((C4_test_runner_order [{ name := "trivial_assertion", body := Except.ok () }]
      [] [] { name := "x", body := Except.ok () } "").1 (by decide)).1,
   ((C4_test_runner_order [] [{ name := "a", body := Except.ok () }]
      [{ name := "c", body := Except.ok () }]
      { name := "b", body := Except.error "boom" } "boom").2 (by decide) (by decide)).2.2⟩

/-- C7 counterexample: write_byte itself performs no substitution, so the
claim that write_byte(0x00) produces an 0xfe cell is false on the code:
the cell written holds ascii 0x00. -/
theorem C7_write_byte_verbatim_counterexample :
    (testWriter.write_byte 0x00).bind
        (fun w2 => w2.buffer.readCell (BUFFER_HEIGHT - 1) 0)
      = some { ascii_character := 0x00, color_code := 0x0e }
    ∧ (0x00 : Nat) ≠ 0xfe := by
  constructor
  · decide
  · decide

/-- C7 (amended): the silent 0xFE substitution happens in the write_string
dispatch, not in write_byte: a byte outside [0x20, 0x7e] and not newline
is routed to write_byte as 0xfe, so the resulting cell holds ascii 0xfe
with the current color code, while write_byte itself writes its argument
verbatim. -/
theorem C7_placeholder_substitution (w : Writer) (b : Nat) (r : List ScreenChar)
    (hb : ¬(0x20 ≤ b ∧ b ≤ 0x7e)) (hbne : b ≠ 0x0a)
    (hr : w.buffer[BUFFER_HEIGHT - 1]? = some r) (hlen : r.length = BUFFER_WIDTH)
    (hcol : w.column_position < BUFFER_WIDTH) :
    w.write_string [b] = w.write_byte 0xfe
    ∧ w.write_string [b] = some { w with
        buffer := w.buffer.set (BUFFER_HEIGHT - 1)
          (r.set w.column_position { ascii_character := 0xfe, color_code := w.color_code }),
        column_position := w.column_position + 1 }
    ∧ w.write_byte b = some { w with
        buffer := w.buffer.set (BUFFER_HEIGHT - 1)
          (r.set w.column_position { ascii_character := b, color_code := w.color_code }),
        column_position := w.column_position + 1 } := by
  have h1 : w.write_string [b] = w.write_byte 0xfe := by
    rw [write_string_singleton, if_neg (fun hor => hor.elim hb hbne)]
  refine ⟨h1, ?_, ?_⟩
  · rw [h1]
    exact write_byte_eq_no_wrap w 0xfe r (by decide) hcol hr hlen
  · exact write_byte_eq_no_wrap w b r hbne hcol hr hlen

/-- C7 witness for the amended claim: byte 0x00 on a concrete writer is
routed through write_string as 0xfe and produces an 0xfe cell. -/
theorem C7_placeholder_substitution_witness :
    testWriter.write_string [0x00] = testWriter.write_byte 0xfe
    ∧ testWriter.write_string [0x00] = some { testWriter with
        buffer := testWriter.buffer.set (BUFFER_HEIGHT - 1)
          ((List.replicate BUFFER_WIDTH { ascii_character := 0x20, color_code := 0x0f }).set
            testWriter.column_position
            { ascii_character := 0xfe, color_code := testWriter.color_code }),
        column_position := testWriter.column_position + 1 } :=
  ⟨(C7_placeholder_substitution testWriter 0x00
      (List.replicate BUFFER_WIDTH { ascii_character := 0x20, color_code := 0x0f })
      (by decide) (by decide) (by decide) (by decide) (by decide)).1,
   (C7_placeholder_substitution testWriter 0x00
      (List.replicate BUFFER_WIDTH { ascii_character := 0x20, color_code := 0x0f })
      (by decide) (by decide) (by decide) (by decide) (by decide)).2.1⟩

/-- C8: the column invariant 0 ≤ column_position ≤ 80 holds for the
initial WRITER and is preserved by write_byte, write_string, new_line and
clear_row; every direct cell write of write_byte targets the last row, so
rows other than 24 are unchanged whenever no scroll happens. -/
theorem C8_column_invariant_and_row_frame :
    (∀ buf : Buffer, (WRITER buf).column_position ≤ BUFFER_WIDTH)
    ∧ (∀ (w w2 : Writer) (b : Nat), w.column_position ≤ BUFFER_WIDTH →
        w.write_byte b = some w2 → w2.column_position ≤ BUFFER_WIDTH)
    ∧ (∀ (w w2 : Writer) (s : List Nat), w.column_position ≤ BUFFER_WIDTH →
        w.write_string s = some w2 → w2.column_position ≤ BUFFER_WIDTH)
    ∧ (∀ w w2 : Writer, w.new_line = some w2 → w2.column_position = 0)
    ∧ (∀ (w w2 : Writer) (row : Nat), w.clear_row row = some w2 →
        w2.column_position = w.column_position)
    ∧ (∀ (w w2 : Writer) (b : Nat), b ≠ 0x0a → w.column_position < BUFFER_WIDTH →
        w.write_byte b = some w2 →
        ∀ row, row ≠ BUFFER_HEIGHT - 1 → w2.buffer[row]? = w.buffer[row]?) :=
  ⟨fun _ => Nat.zero_le _,
   fun w w2 b _ h => write_byte_column_le w w2 b h,
   fun w w2 s h hw => write_string_column_le s w w2 h hw,
   new_line_column,
   clear_row_column,
   write_byte_frame⟩

/-- C8 witness: the invariant conjuncts evaluated on a concrete step, the
writer testWriter taking byte 0x41 to testWriter2; row 3 is untouched. -/
theorem C8_column_invariant_and_row_frame_witness :
    (WRITER initBuffer).column_position ≤ BUFFER_WIDTH
    ∧ testWriter2.column_position ≤ BUFFER_WIDTH
    ∧ testWriter2.buffer[3]? = testWriter.buffer[3]? :=
  ⟨C8_column_invariant_and_row_frame.1 initBuffer,
   C8_column_invariant_and_row_frame.2.1 testWriter testWriter2 0x41 (by decide) (by decide),
   C8_column_invariant_and_row_frame.2.2.2.2.2 testWriter testWriter2 0x41
     (by decide) (by decide) (by decide) 3 (by decide)⟩

/-- C9: on a well-formed 25 x 80 buffer every access is in bounds whatever
the starting column: write_byte on any byte and new_line always succeed,
and clear_row succeeds on every row below BUFFER_HEIGHT; the out-of-bounds
branch of the embedding is never taken. -/
theorem C9_no_out_of_bounds (w : Writer) (b : Nat) (row : Nat) (hwf : Buffer.wf w.buffer) :
    (w.write_byte b).isSome
    ∧ w.new_line.isSome
    ∧ (row < BUFFER_HEIGHT → (w.clear_row row).isSome) := by
  have hnl : w.new_line.isSome := by
    rw [new_line_eq w hwf]
    rfl
  refine ⟨?_, hnl, ?_⟩
  · by_cases hb : b = 0x0a
    · rw [hb]
      simp only [Writer.write_byte, if_pos rfl]
      exact hnl
    · by_cases hc : BUFFER_WIDTH ≤ w.column_position
      · rw [write_byte_eq_wrap w b hb hc hwf]
        rfl
      · have hcol : w.column_position < BUFFER_WIDTH := Nat.not_le.mp hc
        have h24 : BUFFER_HEIGHT - 1 < w.buffer.length := by
          rw [hwf.1]
          decide
        rw [write_byte_eq_no_wrap w b (w.buffer[BUFFER_HEIGHT - 1]) hb hcol
          (List.getElem?_eq_getElem h24) (hwf.2 _ (List.getElem_mem h24))]
        rfl
  · intro hrow
    have hlt : row < w.buffer.length := by
      rw [hwf.1]
      exact hrow
    rw [clear_row_eq w row (w.buffer[row]) (List.getElem?_eq_getElem hlt)
      (hwf.2 _ (List.getElem_mem hlt))]
    rfl

/-- C9 witness: the bounds theorem at a writer whose column is 1000, far
out of range, with byte 0x41 and row 24. -/
theorem C9_no_out_of_bounds_witness :
    (strayWriter.write_byte 0x41).isSome
    ∧ strayWriter.new_line.isSome
    ∧ (strayWriter.clear_row 24).isSome :=
  ⟨(C9_no_out_of_bounds strayWriter 0x41 24 (by decide)).1,
   (C9_no_out_of_bounds strayWriter 0x41 24 (by decide)).2.1,
   (C9_no_out_of_bounds strayWriter 0x41 24 (by decide)).2.2 (by decide)⟩

/-- C10: the fmt::Write implementation always returns Ok, so the unwrap
inside _print can never panic on account of the writer result: whenever
write_string succeeds, _print succeeds. -/
theorem C10_write_str_ok :
    (∀ (w : Writer) (s : List Nat) (p : Writer × Except Unit Unit),
      w.write_str s = some p → p.2 = Except.ok ())
    ∧ (∀ (w : Writer) (s : List Nat) (p : Writer × Except Unit Unit),
      w.write_str s = some p → unwrap p.2 = some ())
    ∧ (∀ (w : Writer) (s : List Nat), (w.write_string s).isSome → (_print w s).isSome) := by
  have hok : ∀ (w : Writer) (s : List Nat) (p : Writer × Except Unit Unit),
      w.write_str s = some p → p.2 = Except.ok () := by
    intro w s p h
    simp only [Writer.write_str, Option.bind_eq_bind, Option.bind_eq_some, Option.pure_def,
      Option.some.injEq] at h
    obtain ⟨w2, hw2, hp⟩ := h
    rw [← hp]
  refine ⟨hok, ?_, ?_⟩
  · intro w s p h
    rw [hok w s p h]
    rfl
  · intro w s h
    obtain ⟨w2, hw2⟩ := Option.isSome_iff_exists.mp h
    have hstr : w.write_str s = some (w2, Except.ok ()) := by
      simp only [Writer.write_str, Option.bind_eq_bind, hw2, Option.some_bind]
      rfl
    simp only [_print, Option.bind_eq_bind, hstr, Option.some_bind]
    rfl

/-- C10 witness: the ok-result theorem evaluated on a concrete writer and
the one-byte string 0x41, whose write_str output is (testWriter2, Ok). -/
theorem C10_write_str_ok_witness :
    Prod.snd (testWriter2, (Except.ok () : Except Unit Unit)) = Except.ok ()
    ∧ unwrap (Prod.snd (testWriter2, (Except.ok () : Except Unit Unit))) = some ()
    ∧ (_print testWriter [0x41]).isSome :=
  ⟨C10_write_str_ok.1 testWriter [0x41] (testWriter2, Except.ok ()) (by decide),
   C10_write_str_ok.2.1 testWriter [0x41] (testWriter2, Except.ok ()) (by decide),
   C10_write_str_ok.2.2 testWriter [0x41] (by decide)⟩

end ArtOS
